import Mathlib

/-!
# Verification of the energy-analysis pipeline

A shallow embedding of `src/script.py`: a pandas script that loads per-house
CSV time series, joins them into a Panel (entity × time × variable), derives
a cumulative-energy variable and computes hourly-average and load-duration
aggregates.  Numeric values are modelled as rationals, tables as lists.
-/

/-- A parsed timestamp.  `day` stands for the whole date part, which the
hourly aggregation ignores; `hour` is the hour-of-day component used by
`x.hour` in the script. -/
structure Timestamp where
  day : Nat
  hour : Nat
  minute : Nat
deriving DecidableEq, Repr

/-- A pandas index as produced by `pd.read_csv(..., parse_dates=True)`:
either every entry parsed into a timestamp, or (when parsing fails) the raw
strings kept unchanged. -/
inductive PIndex where
  | parsed : List Timestamp → PIndex
  | raw : List String → PIndex
deriving DecidableEq, Repr

/-- Length of an index. -/
def PIndex.len : PIndex → Nat
  | .parsed ts => ts.length
  | .raw ss => ss.length

/-- The error kinds relevant to the script: the Python exceptions it can
actually raise (`ioError`, `indexError`, `valueError`) together with the
error names the design documentation mentions (`inputError`,
`alignmentError`, `duplicateVariableError`), so that statements about the
latter can be formalised. -/
inductive Err where
  | ioError
  | indexError
  | valueError
  | inputError
  | alignmentError
  | duplicateVariableError
deriving DecidableEq, Repr

/-- A time-indexed table of named numeric columns (`pd.DataFrame` as
produced by `pd.read_csv` in the script). -/
structure DataFrame where
  index : PIndex
  columns : List String
  values : List (List ℚ)
deriving DecidableEq, Repr

/-- A raw input file: its base name, whether it can be read, its header
(variable names) and its rows (first field is the raw timestamp string,
the rest are the numeric values). -/
structure RawFile where
  name : String
  readable : Bool
  header : List String
  rows : List (String × List ℚ)

/-- Index parsing under `parse_dates=True`: the whole first column is
parsed into timestamps when every entry parses, and kept as the raw
strings otherwise — pandas raises no error on unparseable dates. -/
def parseIndex (parseTs : String → Option Timestamp) (idxStrs : List String) : PIndex :=
  match idxStrs.mapM parseTs with
  | some ts => PIndex.parsed ts
  | none => PIndex.raw idxStrs

/-- Model of `pd.read_csv(x, index_col=0, parse_dates=True)` (line 35): an
unreadable file raises the reader's IOError; otherwise the first column
becomes the (possibly unparsed) index and the rest the numeric columns. -/
def read_csv (parseTs : String → Option Timestamp) (f : RawFile) : Except Err DataFrame :=
  if f.readable = false then .error .ioError
  else
    .ok { index := parseIndex parseTs (f.rows.map Prod.fst),
          columns := f.header, values := f.rows.map Prod.snd }

/-- Model of `dfs = map(lambda x: pd.read_csv(...), file_names)` (line 35): load the
files left to right, stopping at the first raised exception. -/
def loadFiles (parseTs : String → Option Timestamp) :
    List RawFile → Except Err (List DataFrame)
  | [] => .ok []
  | f :: fs =>
    match read_csv parseTs f with
    | .error e => .error e
    | .ok d =>
      match loadFiles parseTs fs with
      | .error e => .error e
      | .ok ds => .ok (d :: ds)

/-- Fuel-driven core of Python's `str.split(sep)`: splits on every
non-overlapping occurrence of `sep`, scanning left to right. -/
def pySplitF : Nat → List Char → List Char → List (List Char)
  | 0, _, _ => []
  | fuel+1, sep, s =>
    match s with
    | [] => [[]]
    | c :: rest =>
      if 0 < sep.length ∧ sep.isPrefixOf (c :: rest) then
        [] :: pySplitF fuel sep (List.drop sep.length (c :: rest))
      else
        match pySplitF fuel sep rest with
        | [] => [[c]]
        | piece :: more => (c :: piece) :: more

/-- Python's `s.split(sep)` for a non-empty separator. -/
def pySplit (sep s : List Char) : List (List Char) :=
  pySplitF (s.length + 1) sep s

/-- The separator `'.csv'` used on line 51. -/
def csvSep : List Char := ['.', 'c', 's', 'v']

/-- Model of `os.path.split(x)[-1].split('.csv')[0]` (line 51) applied to the bare
file name (`os.path.split` of the joined path returns the file name). -/
def houseName (fname : String) : String :=
  String.mk ((pySplit csvSep fname.toList).headD [])

/-- The aligned three-dimensional structure built on line 57
(`pd.Panel`): items are the house names, the major axis is the shared time
index, the minor axis the variable names, and `values` holds, per item,
the (time × variable) matrix. -/
structure Panel where
  items : List String
  major_axis : PIndex
  minor_axis : List String
  values : List (List (List ℚ))
deriving DecidableEq, Repr

/-- Whether all frames share the shape of the first (the only condition
the numpy-backed constructor enforces; index values are never compared). -/
def sameShape (d0 : DataFrame) (dfs : List DataFrame) : Bool :=
  dfs.all fun d =>
    d.values.length == d0.values.length &&
    d.values.all fun r => r.length == d0.columns.length

/-- Line 57: `pd.Panel(map(lambda x: x.values, dfs), items=house_names,
major_axis=dfs[0].index.tolist(), minor_axis=dfs[0].columns.tolist())`.
On an empty list, `dfs[0]` raises IndexError; raggedly shaped frames make
the constructor raise ValueError; otherwise the Panel is built from the
raw value matrices and the FIRST frame's index and columns — the other
frames' index values are discarded without any comparison. -/
def buildPanel (dfs : List DataFrame) (names : List String) : Except Err Panel :=
  match dfs with
  | [] => .error .indexError
  | d0 :: rest =>
    if sameShape d0 (d0 :: rest) then
      .ok { items := names, major_axis := d0.index, minor_axis := d0.columns,
            values := (d0 :: rest).map (·.values) }
    else .error .valueError

/-- Lines 31–57 of the script: load every file, derive the house names and
build the Panel. -/
def pipeline (parseTs : String → Option Timestamp) (files : List RawFile) :
    Except Err Panel :=
  match loadFiles parseTs files with
  | .error e => .error e
  | .ok dfs => buildPanel dfs (files.map fun f => houseName f.name)

/-- First position of `v` in a list of labels. -/
def idxOf? (v : String) : List String → Option Nat
  | [] => none
  | x :: xs => if x = v then some 0 else (idxOf? v xs).map (· + 1)

/-- Column `j` of a row-major matrix (out-of-range entries default to 0;
well-formed panels never hit the default). -/
def colAt (rows : List (List ℚ)) (j : Nat) : List ℚ :=
  rows.map fun r => r.getD j 0

/-- Number of time samples of a panel. -/
def Panel.timeLen (p : Panel) : Nat := p.major_axis.len

/-- Slice `pnl.ix[i, :, v]`: the time series of variable `v` for item `i`. -/
def Panel.series (p : Panel) (i : Nat) (v : String) : List ℚ :=
  match idxOf? v p.minor_axis with
  | none => []
  | some j => colAt (p.values.getD i []) j

/-- Structural well-formedness of a panel: one matrix per item, one row per
time sample, one entry per variable. -/
def Panel.WellFormed (p : Panel) : Prop :=
  p.values.length = p.items.length ∧
  ∀ rows ∈ p.values, rows.length = p.timeLen ∧
    ∀ row ∈ rows, row.length = p.minor_axis.length

instance (p : Panel) : Decidable p.WellFormed := by
  unfold Panel.WellFormed; infer_instance

/-- Assignment `pnl.ix[:,:,v] = df` (line 78): assigning a (time × item) table to a
minor-axis label.  If the label already exists its slice is overwritten;
otherwise pandas enlarges the minor axis, appending the new label.
`cols` is given column-major: one time series per item. -/
def Panel.addVarCols (p : Panel) (v : String) (cols : List (List ℚ)) : Panel :=
  match idxOf? v p.minor_axis with
  | some j =>
    { p with values := (List.zipWith
        (fun rows col => List.zipWith (fun row x => row.set j x) rows col)
        p.values cols) }
  | none =>
    { p with minor_axis := p.minor_axis ++ [v],
             values := (List.zipWith
               (fun rows col => List.zipWith (fun row x => row ++ [x]) rows col)
               p.values cols) }

/-- Constant `dt = 60*2` (line 76): the fixed sampling interval in seconds. -/
def dt : ℚ := 60 * 2

/-- Constant `J_2_kWh = 1.0/3600.0/1000.0` (line 77). -/
def J_2_kWh : ℚ := 1 / 3600 / 1000

/-- Model of `np.cumsum` with a running accumulator. -/
def cumsumFrom (acc : ℚ) : List ℚ → List ℚ
  | [] => []
  | x :: xs => (acc + x) :: cumsumFrom (acc + x) xs

/-- Model of `np.cumsum`: left-to-right running totals. -/
def cumsum (l : List ℚ) : List ℚ := cumsumFrom 0 l

/-- Expression `(power*dt).cumsum()*J_2_kWh` for one item's power series (line 78). -/
def energyFromPower (power : List ℚ) : List ℚ :=
  (cumsum (power.map fun x => x * dt)).map fun x => x * J_2_kWh

/-- Slice `pnl.ix[:,:,'Power']` column-major: one power series per item. -/
def Panel.powerCols (p : Panel) : List (List ℚ) :=
  p.values.map fun rows => colAt rows ((idxOf? "Power" p.minor_axis).getD 0)

/-- Line 78: `pnl.ix[:,:,'Energy'] = (pnl.ix[:,:,'Power']*dt).apply(np.cumsum)*J_2_kWh`. -/
def Panel.deriveEnergy (p : Panel) : Panel :=
  p.addVarCols "Energy" (p.powerCols.map energyFromPower)

/-- The energy-derivation statement seen as a fallible operation: the
pandas assignment raises no exception in either the fresh or the
re-assignment case, so it always returns the updated panel. -/
def deriveEnergyE (p : Panel) : Except Err Panel :=
  .ok p.deriveEnergy

/-- Three sample timestamps (same day; hours 0, 0, 1). -/
def ts3 : List Timestamp := [⟨0, 0, 0⟩, ⟨0, 0, 2⟩, ⟨0, 1, 4⟩]

/-- A concrete two-house, three-sample panel with the script's variables. -/
def samplePanel : Panel :=
  { items := ["house1", "house2"],
    major_axis := PIndex.parsed ts3,
    minor_axis := ["Power", "Vrms", "Irms"],
    values := [
      [[100, 230, 1], [100, 231, 2], [100, 229, 3]],
      [[50, 230, 1], [60, 231, 2], [70, 229, 3]]] }

/-- The sample panel after one energy derivation. -/
def samplePanelE : Panel := samplePanel.deriveEnergy

/-! ## Claim theorems: energy derivation -/

/-- A frame with samples at hours 0 and 0. -/
def dfA : DataFrame :=
  { index := PIndex.parsed [⟨0, 0, 0⟩, ⟨0, 0, 2⟩], columns := ["Power"],
    values := [[1], [2]] }

/-- A frame whose time index has the same length as `dfA`'s but different
values. -/
def dfB : DataFrame :=
  { index := PIndex.parsed [⟨0, 0, 0⟩, ⟨0, 5, 30⟩], columns := ["Power"],
    values := [[3], [4]] }

/-- A concrete timestamp parser accepting a single literal. -/
def parseTs0 (s : String) : Option Timestamp :=
  if s = "2016-01-01 00:00" then some ⟨0, 0, 0⟩ else none

/-- A readable file whose first field parses as no timestamp. -/
def fileBadTs : RawFile :=
  { name := "house1.csv", readable := true, header := ["Power"],
    rows := [("garbage", [100])] }

/-- An unreadable file. -/
def fileUnreadable : RawFile :=
  { name := "house2.csv", readable := false, header := ["Power"],
    rows := [("2016-01-01 00:00", [100])] }

/-- Text before the first occurrence of `sep` (the whole string when `sep`
does not occur): the first component of Python's `split`. -/
def beforeSep (sep : List Char) : List Char → List Char
  | [] => []
  | c :: rest =>
    if 0 < sep.length ∧ sep.isPrefixOf (c :: rest) then []
    else c :: beforeSep sep rest

/-- The key described by the spec, stated from the spec's words for
comparison with `houseName`: the file's base name with its extension
removed, i.e. everything before the last dot (the whole name when there is
no dot) — for any extension the file may have. -/
def specStripExt (s : List Char) : List Char :=
  if '.' ∈ s then ((s.reverse.dropWhile fun c => c != '.').drop 1).reverse else s

/-- Mean of a group of values (pandas `mean()`). -/
def mean (l : List ℚ) : ℚ := l.sum / l.length

/-- The values of `col` at the positions whose grouping key equals `h`. -/
def selectByKey (keys : List Nat) (col : List ℚ) (h : Nat) : List ℚ :=
  ((keys.zip col).filter fun q => q.1 == h).map Prod.snd

/-- Lines 88–91: `pnl.ix[:,:,'Power'].groupby(by=[index.map(lambda x:
x.hour)]).mean()` — group the power table's rows by hour-of-day and take
the per-column mean; pandas indexes the result by the sorted distinct
keys. -/
def agg_hourly (hours : List Nat) (cols : List (List ℚ)) : List (Nat × List ℚ) :=
  (List.insertionSort (fun a b => a ≤ b) hours.dedup).map fun h =>
    (h, cols.map fun col => mean (selectByKey hours col h))

/-- Keys `index.map(lambda x: x.hour)` (line 88), meaningful on a parsed index. -/
def Panel.hourIndex (p : Panel) : List Nat :=
  match p.major_axis with
  | .parsed ts => ts.map (·.hour)
  | .raw _ => []

/-- The hourly-average-power table of a panel (line 88/91). -/
def Panel.agg_hourly_power (p : Panel) : List (Nat × List ℚ) :=
  agg_hourly p.hourIndex p.powerCols

/-- Constant `size_bins = 200` (line 101). -/
def size_bins : ℚ := 200

/-- Python's floor division `x // y` on numbers: `math.floor(x / y)`. -/
def floorDiv (x y : ℚ) : ℚ := (⌊x / y⌋ : ℚ)

/-- The grouping key `size_bins*(x//size_bins)` of line 102: the lower
bound, in watts, of the 200 W bin containing `x`. -/
def binKey (x : ℚ) : ℚ := size_bins * floorDiv x size_bins

/-- Line 102: group one entity's power series by bin key and count the
samples per key; pandas indexes the result by the sorted distinct keys. -/
def gcount (xs : List ℚ) : List (ℚ × Nat) :=
  (List.insertionSort (fun a b => a ≤ b) (xs.map binKey).dedup).map fun k =>
    (k, (xs.map binKey).count k)

/-- First value bound to key `k` in an association table. -/
def lookupTab (k : ℚ) : List (ℚ × Nat) → Option Nat
  | [] => none
  | q :: rest => if q.1 = k then some q.2 else lookupTab k rest

/-- Lines 102–105: the per-entity count tables, outer-joined on the sorted
union of their bin keys (`pd.concat(..., axis=1)`), missing entries filled
with 0 (`fillna(0)`); one row per bin key, one column per entity. -/
def load_duration (cols : List (List ℚ)) : List (ℚ × List ℚ) :=
  (List.insertionSort (fun a b => a ≤ b)
      (((cols.map gcount).map fun t => t.map Prod.fst).flatten.dedup)).map fun k =>
    (k, (cols.map gcount).map fun t => (((lookupTab k t).getD 0 : Nat) : ℚ))

/-- One column's sum of the joined table (`load_duration.sum()`, line 106). -/
def colSum (ld : List (ℚ × List ℚ)) (j : Nat) : ℚ :=
  (ld.map fun r => r.2.getD j 0).sum

/-- Line 106: `load_duration*100.0/load_duration.sum()` — each entity's
per-bin count as a percentage of that entity's column total. -/
def load_duration_pct (cols : List (List ℚ)) : List (ℚ × List ℚ) :=
  (load_duration cols).map fun r =>
    (r.1, (List.range cols.length).map fun j =>
      r.2.getD j 0 * 100 / colSum (load_duration cols) j)

/-! ## Lemmas and claim theorems -/

lemma getD_map_lt {α β : Type} (f : α → β) (L : List α) (j : Nat) (d : β) (e : α)
    (h : j < L.length) : (L.map f).getD j d = f (L.getD j e) := by
  induction L generalizing j with
  | nil => simp at h
  | cons a L ih =>
    cases j with
    | zero => rfl
    | succ j => simpa using ih j (by simpa using h)

lemma getD_range_map {β : Type} (f : Nat → β) (n j : Nat) (d : β) (h : j < n) :
    ((List.range n).map f).getD j d = f j := by
  rw [getD_map_lt f _ j d 0 (by simpa using h)]
  congr 1
  simp [List.getD_eq_getElem?_getD, List.getElem?_range h]

lemma zipWith_self_map {α β γ : Type} (f : α → β → γ) (g : α → β) (l : List α) :
    List.zipWith f l (l.map g) = l.map fun a => f a (g a) := by
  induction l with
  | nil => rfl
  | cons a l ih => simp [ih]

lemma zipWith_zipWith_same {α β γ δ : Type} (f : γ → β → δ) (g : α → β → γ)
    (l : List α) (m : List β) :
    List.zipWith f (List.zipWith g l m) m = List.zipWith (fun a b => f (g a b) b) l m := by
  induction l generalizing m with
  | nil => rfl
  | cons a l ih => cases m with
    | nil => rfl
    | cons b m => simp [ih]

lemma zipWith_congr_mem {α β γ : Type} (f g : α → β → γ) (l : List α) (m : List β)
    (h : ∀ a ∈ l, ∀ b ∈ m, f a b = g a b) :
    List.zipWith f l m = List.zipWith g l m := by
  induction l generalizing m with
  | nil => rfl
  | cons a l ih => cases m with
    | nil => rfl
    | cons b m =>
      simp only [List.zipWith_cons_cons]
      refine congrArg₂ _ (h a (by simp) b (by simp)) (ih m ?_)
      intro a' ha' b' hb'
      exact h a' (by simp [ha']) b' (by simp [hb'])

lemma zipWith_snd_eq {α β : Type} (l : List α) (m : List β) (h : l.length = m.length) :
    List.zipWith (fun _ b => b) l m = m := by
  induction l generalizing m with
  | nil => cases m with
    | nil => rfl
    | cons b m => simp at h
  | cons a l ih => cases m with
    | nil => simp at h
    | cons b m => simpa using ih m (by simpa using h)

lemma getD_append_lt {α : Type} (l l' : List α) (i : Nat) (d : α) (h : i < l.length) :
    (l ++ l').getD i d = l.getD i d := by
  induction l generalizing i with
  | nil => simp at h
  | cons a l ih =>
    cases i with
    | zero => rfl
    | succ i => simpa using ih i (by simpa using h)

lemma getD_append_len {α : Type} (l : List α) (x : α) (d : α) :
    (l ++ [x]).getD l.length d = x := by
  induction l with
  | nil => rfl
  | cons a l ih => simpa using ih

lemma set_append_len {α : Type} (l : List α) (x y : α) :
    (l ++ [x]).set l.length y = l ++ [y] := by
  induction l with
  | nil => rfl
  | cons a l ih => simpa using ih

/-! ## Lemmas about `idxOf?` -/

lemma idxOf?_eq_none_iff (v : String) (l : List String) :
    idxOf? v l = none ↔ v ∉ l := by
  induction l with
  | nil => simp [idxOf?]
  | cons a l ih =>
    by_cases h : a = v
    · simp [idxOf?, h]
    · rw [show idxOf? v (a :: l) = (idxOf? v l).map (· + 1) from by simp [idxOf?, h]]
      cases hx : idxOf? v l with
      | none =>
        have hv : v ∉ l := ih.mp hx
        constructor
        · intro _ hmem
          rcases List.mem_cons.mp hmem with rfl | hm
          · exact h rfl
          · exact hv hm
        · intro _
          rfl
      | some j =>
        have hv : v ∈ l := by
          by_contra hm
          rw [ih.mpr hm] at hx
          cases hx
        have hne : v ∈ a :: l := List.mem_cons_of_mem a hv
        constructor
        · intro hcontra
          simp at hcontra
        · intro hnm
          exact absurd hne hnm

lemma idxOf?_eq_some_of_mem (v : String) (l : List String) (h : v ∈ l) :
    ∃ j, idxOf? v l = some j ∧ j < l.length := by
  induction l with
  | nil => simp at h
  | cons a l ih =>
    by_cases ha : a = v
    · exact ⟨0, by simp [idxOf?, ha], by simp⟩
    · have hm : v ∈ l := by
        rcases List.mem_cons.mp h with rfl | hm
        · exact absurd rfl ha
        · exact hm
      obtain ⟨j, hj, hjl⟩ := ih hm
      exact ⟨j + 1, by simp [idxOf?, ha, hj], by simpa using Nat.succ_lt_succ hjl⟩

lemma idxOf?_append_of_mem (v : String) (l m : List String) (h : v ∈ l) :
    idxOf? v (l ++ m) = idxOf? v l := by
  induction l with
  | nil => simp at h
  | cons a l ih =>
    by_cases ha : a = v
    · simp [idxOf?, ha]
    · have hm : v ∈ l := by
        rcases List.mem_cons.mp h with rfl | hm
        · exact absurd rfl ha
        · exact hm
      simp [idxOf?, ha, ih hm]

lemma idxOf?_append_self (v : String) (l : List String) (h : v ∉ l) :
    idxOf? v (l ++ [v]) = some l.length := by
  induction l with
  | nil => simp [idxOf?]
  | cons a l ih =>
    have ha : a ≠ v := fun hav => h (by simp [hav])
    have hl : v ∉ l := fun hm => h (by simp [hm])
    simp [idxOf?, ha, ih hl]

/-! ## Lemmas about `cumsum` -/

lemma cumsumFrom_length (acc : ℚ) (l : List ℚ) : (cumsumFrom acc l).length = l.length := by
  induction l generalizing acc with
  | nil => rfl
  | cons x xs ih => simp [cumsumFrom, ih]

lemma cumsum_length (l : List ℚ) : (cumsum l).length = l.length := cumsumFrom_length 0 l

lemma cumsumFrom_getD (acc : ℚ) (l : List ℚ) (t : Nat) (h : t < l.length) :
    (cumsumFrom acc l).getD t 0 = acc + ∑ k in Finset.range (t + 1), l.getD k 0 := by
  induction l generalizing acc t with
  | nil => simp at h
  | cons x xs ih =>
    cases t with
    | zero => simp [cumsumFrom]
    | succ t =>
      have ht : t < xs.length := by simpa using h
      have := ih (acc + x) t ht
      calc (cumsumFrom acc (x :: xs)).getD (t + 1) 0
          = (cumsumFrom (acc + x) xs).getD t 0 := rfl
        _ = acc + x + ∑ k in Finset.range (t + 1), xs.getD k 0 := this
        _ = acc + ∑ k in Finset.range (t + 2), (x :: xs).getD k 0 := by
            rw [Finset.sum_range_succ' (fun k => (x :: xs).getD k 0) (t + 1)]
            simp only [List.getD_cons_succ, List.getD_cons_zero]
            ring

lemma cumsum_getD (l : List ℚ) (t : Nat) (h : t < l.length) :
    (cumsum l).getD t 0 = ∑ k in Finset.range (t + 1), l.getD k 0 := by
  simpa using cumsumFrom_getD 0 l t h

lemma cumsumFrom_replicate (acc x : ℚ) (n : Nat) :
    cumsumFrom acc (List.replicate n x) =
      (List.range n).map fun (k : Nat) => acc + ((k : ℚ) + 1) * x := by
  induction n generalizing acc with
  | zero => rfl
  | succ n ih =>
    rw [List.replicate_succ, List.range_succ_eq_map]
    show (acc + x) :: cumsumFrom (acc + x) (List.replicate n x) = _
    rw [ih (acc + x), List.map_cons, List.map_map]
    have hf : ((fun (k : Nat) => acc + ((k : ℚ) + 1) * x) ∘ Nat.succ)
        = fun (k : Nat) => acc + x + ((k : ℚ) + 1) * x := by
      funext k
      simp only [Function.comp_apply, Nat.cast_succ]
      ring
    rw [hf]
    simp only [List.cons.injEq, and_true]
    push_cast
    ring

lemma map_mul_getD (l : List ℚ) (c : ℚ) (t : Nat) :
    ((l.map fun x => x * c).getD t 0) = l.getD t 0 * c := by
  by_cases h : t < l.length
  · rw [getD_map_lt (fun x => x * c) l t 0 0 h]
  · rw [List.getD_eq_getElem?_getD, List.getD_eq_getElem?_getD]
    rw [List.getElem?_eq_none (by simpa using Nat.le_of_not_lt h),
        List.getElem?_eq_none (by exact Nat.le_of_not_lt h)]
    simp

lemma sum_map_mul_const (l : List ℚ) (c : ℚ) :
    (l.map fun x => x * c).sum = l.sum * c := by
  induction l with
  | nil => simp
  | cons a l ih => simp [ih]; ring

lemma sum_map_natCast (l : List Nat) :
    ((l.map fun (n : Nat) => (n : ℚ)).sum) = (l.sum : ℚ) := by
  induction l with
  | nil => simp
  | cons a l ih =>
    simp only [List.map_cons, List.sum_cons, ih]
    push_cast
    ring

lemma map_zipWith_comp {α β γ δ : Type} (g : γ → δ) (f : α → β → γ) (l : List α) (m : List β) :
    (List.zipWith f l m).map g = List.zipWith (fun a b => g (f a b)) l m := by
  induction l generalizing m with
  | nil => rfl
  | cons a l ih => cases m with
    | nil => rfl
    | cons b m => simp [ih]

lemma energyFromPower_length (power : List ℚ) :
    (energyFromPower power).length = power.length := by
  simp [energyFromPower, cumsum, cumsumFrom_length]

lemma colAt_length (rows : List (List ℚ)) (j : Nat) : (colAt rows j).length = rows.length := by
  simp [colAt]

/-! ## Structure of the energy derivation -/

lemma deriveEnergy_eq_append (p : Panel) (hE : "Energy" ∉ p.minor_axis) :
    p.deriveEnergy = { p with
      minor_axis := p.minor_axis ++ ["Energy"],
      values := (p.values.map fun rows =>
        List.zipWith (fun row x => row ++ [x]) rows
          (energyFromPower (colAt rows ((idxOf? "Power" p.minor_axis).getD 0)))) } := by
  unfold Panel.deriveEnergy Panel.addVarCols Panel.powerCols
  rw [(idxOf?_eq_none_iff _ _).mpr hE]
  simp only [List.map_map]
  rw [zipWith_self_map]
  rfl

lemma deriveEnergy_items (p : Panel) : p.deriveEnergy.items = p.items := by
  unfold Panel.deriveEnergy Panel.addVarCols
  split <;> rfl

lemma deriveEnergy_major (p : Panel) : p.deriveEnergy.major_axis = p.major_axis := by
  unfold Panel.deriveEnergy Panel.addVarCols
  split <;> rfl

lemma series_of_append_panel (p : Panel) (i : Nat)
    (hwf : p.WellFormed) (hi : i < p.values.length)
    (hE : "Energy" ∉ p.minor_axis) (jP : Nat) :
    Panel.series { p with
      minor_axis := p.minor_axis ++ ["Energy"],
      values := (p.values.map fun rows =>
        List.zipWith (fun row x => row ++ [x]) rows
          (energyFromPower (colAt rows jP))) } i "Energy"
    = energyFromPower (colAt (p.values.getD i []) jP) := by
  unfold Panel.series
  rw [idxOf?_append_self "Energy" p.minor_axis hE]
  have hrows_mem : p.values.getD i [] ∈ p.values := by
    rw [List.getD_eq_getElem p.values [] hi]
    exact List.getElem_mem hi
  have hrowlen : ∀ row ∈ p.values.getD i [], row.length = p.minor_axis.length :=
    (hwf.2 _ hrows_mem).2
  rw [getD_map_lt _ p.values i [] [] hi]
  set rows := p.values.getD i [] with hrows
  set col := energyFromPower (colAt rows jP) with hcol
  show colAt (List.zipWith (fun row x => row ++ [x]) rows col) p.minor_axis.length = col
  unfold colAt
  rw [map_zipWith_comp]
  rw [zipWith_congr_mem _ (fun _ b => b) rows col ?pointwise]
  case pointwise =>
    intro row hrow x _
    rw [← hrowlen row hrow]
    exact getD_append_len row x 0
  exact zipWith_snd_eq rows col (by rw [hcol, energyFromPower_length, colAt_length])

lemma series_power_eq_colAt (p : Panel) (i jP : Nat)
    (hjP : idxOf? "Power" p.minor_axis = some jP) :
    p.series i "Power" = colAt (p.values.getD i []) jP := by
  unfold Panel.series
  rw [hjP]

lemma deriveEnergy_series_energy (p : Panel) (i : Nat)
    (hwf : p.WellFormed) (hi : i < p.values.length)
    (hE : "Energy" ∉ p.minor_axis) (hP : "Power" ∈ p.minor_axis) :
    (p.deriveEnergy).series i "Energy" = energyFromPower (p.series i "Power") := by
  obtain ⟨jP, hjP, hjPlt⟩ := idxOf?_eq_some_of_mem "Power" p.minor_axis hP
  rw [deriveEnergy_eq_append p hE, hjP]
  simp only [Option.getD_some]
  rw [series_of_append_panel p i hwf hi hE jP, series_power_eq_colAt p i jP hjP]

lemma zipWith_fst_map {α β γ : Type} (f : α → γ) (l : List α) (m : List β)
    (h : l.length = m.length) :
    List.zipWith (fun a _ => f a) l m = l.map f := by
  induction l generalizing m with
  | nil => rfl
  | cons a l ih => cases m with
    | nil => simp at h
    | cons b m => simpa using ih m (by simpa using h)

lemma map_id_of_mem {α : Type} (l : List α) (f : α → α) (h : ∀ a ∈ l, f a = a) :
    l.map f = l := by
  induction l with
  | nil => rfl
  | cons a l ih =>
    simp only [List.map_cons, h a (by simp)]
    rw [ih fun a ha => h a (by simp [ha])]

lemma series_eq (p : Panel) (i : Nat) (v : String) (j : Nat)
    (h : idxOf? v p.minor_axis = some j) :
    p.series i v = colAt (p.values.getD i []) j := by
  unfold Panel.series
  rw [h]

lemma zipWith_map_both {α β γ δ : Type} (f : β → γ → δ) (F : α → β) (G : α → γ)
    (l : List α) :
    List.zipWith f (l.map F) (l.map G) = l.map fun a => f (F a) (G a) := by
  induction l with
  | nil => rfl
  | cons a l ih => simp [ih]

lemma map_congr_mem {α β : Type} (l : List α) (f g : α → β) (h : ∀ a ∈ l, f a = g a) :
    l.map f = l.map g := by
  induction l with
  | nil => rfl
  | cons a l ih =>
    simp only [List.map_cons, h a (by simp)]
    rw [ih fun a ha => h a (by simp [ha])]

lemma deriveEnergy_series_old (p : Panel) (i : Nat) (v : String)
    (hwf : p.WellFormed) (hi : i < p.values.length)
    (hE : "Energy" ∉ p.minor_axis) (hv : v ∈ p.minor_axis) :
    (p.deriveEnergy).series i v = p.series i v := by
  obtain ⟨j, hj, hjlt⟩ := idxOf?_eq_some_of_mem v p.minor_axis hv
  rw [deriveEnergy_eq_append p hE]
  rw [series_eq p i v j hj]
  rw [series_eq _ i v j ((idxOf?_append_of_mem v p.minor_axis ["Energy"] hv).trans hj)]
  rw [getD_map_lt _ p.values i [] [] hi]
  have hrows_mem : p.values.getD i [] ∈ p.values := by
    rw [List.getD_eq_getElem p.values [] hi]
    exact List.getElem_mem hi
  have hrowlen : ∀ row ∈ p.values.getD i [], row.length = p.minor_axis.length :=
    (hwf.2 _ hrows_mem).2
  unfold colAt
  rw [map_zipWith_comp]
  rw [zipWith_congr_mem _ (fun row _ => row.getD j 0) _ _ ?pointwise]
  case pointwise =>
    intro row hrow x _
    exact getD_append_lt row [x] j 0 (by rw [hrowlen row hrow]; exact hjlt)
  exact zipWith_fst_map _ _ _ (by rw [energyFromPower_length]; simp)

lemma deriveEnergy_idem (p : Panel) (hwf : p.WellFormed)
    (hE : "Energy" ∉ p.minor_axis) (hP : "Power" ∈ p.minor_axis) :
    p.deriveEnergy.deriveEnergy = p.deriveEnergy := by
  obtain ⟨jP, hjP, hjPlt⟩ := idxOf?_eq_some_of_mem "Power" p.minor_axis hP
  have hjP1 : idxOf? "Power" (p.minor_axis ++ ["Energy"]) = some jP := by
    rw [idxOf?_append_of_mem _ _ _ hP, hjP]
  have hjE1 : idxOf? "Energy" (p.minor_axis ++ ["Energy"]) = some p.minor_axis.length :=
    idxOf?_append_self _ _ hE
  rw [deriveEnergy_eq_append p hE]
  simp only [hjP, Option.getD_some]
  unfold Panel.deriveEnergy Panel.addVarCols Panel.powerCols
  simp only [hjP1, hjE1, Option.getD_some, List.map_map]
  congr 1
  rw [zipWith_map_both]
  rw [show (List.map (fun rows => List.zipWith (fun row x => row ++ [x]) rows
      (energyFromPower (colAt rows jP))) p.values)
    = p.values.map (fun rows => List.zipWith (fun row x => row ++ [x]) rows
      (energyFromPower (colAt rows jP))) from rfl]
  apply map_congr_mem
  intro rows hrows
  simp only [Function.comp_apply]
  have hrowlen : ∀ row ∈ rows, row.length = p.minor_axis.length := (hwf.2 rows hrows).2
  have hcol : colAt (List.zipWith (fun row x => row ++ [x]) rows
      (energyFromPower (colAt rows jP))) jP = colAt rows jP := by
    unfold colAt
    rw [map_zipWith_comp]
    rw [zipWith_congr_mem _ (fun row _ => row.getD jP 0) _ _ ?pw]
    case pw =>
      intro row hrow x _
      exact getD_append_lt row [x] jP 0 (by rw [hrowlen row hrow]; exact hjPlt)
    exact zipWith_fst_map _ _ _ (by rw [energyFromPower_length]; simp)
  rw [hcol]
  rw [zipWith_zipWith_same]
  rw [zipWith_congr_mem _ (fun row x => row ++ [x]) _ _ ?pw2]
  case pw2 =>
    intro row hrow x _
    rw [← hrowlen row hrow]
    exact set_append_len row x x

/-! ## Pointwise description of the energy series -/

lemma energyFromPower_getD (power : List ℚ) (t : Nat) (h : t < power.length) :
    (energyFromPower power).getD t 0
      = (∑ k in Finset.range (t + 1), power.getD k 0) * dt * J_2_kWh := by
  unfold energyFromPower
  rw [map_mul_getD]
  rw [cumsum_getD _ t (by simpa using h)]
  rw [show (∑ k in Finset.range (t + 1), (power.map fun x => x * dt).getD k 0)
      = ∑ k in Finset.range (t + 1), power.getD k 0 * dt from
    Finset.sum_congr rfl fun k _ => map_mul_getD power dt k]
  rw [← Finset.sum_mul]

lemma energyFromPower_replicate (P : ℚ) (N : Nat) :
    energyFromPower (List.replicate N P)
      = (List.range N).map fun (k : Nat) => P * dt * J_2_kWh * ((k : ℚ) + 1) := by
  unfold energyFromPower cumsum
  rw [List.map_replicate]
  rw [cumsumFrom_replicate 0 (P * dt) N]
  rw [List.map_map]
  apply map_congr_mem
  intro k _
  simp only [Function.comp_apply]
  ring

/-! ## Concrete data for witnesses -/

/-- C1: for every entity the derived "Energy" series is the left-to-right
running cumulative sum of `power[t] * dt` (dt = 120 s) times the conversion
factor `1/3,600,000`, computed per entity with no trapezoidal correction;
the first value is `power[0] * dt * c`, and constant power `P` over `N`
samples yields `[P*dt*c, 2*P*dt*c, ..., N*P*dt*c]`. -/
theorem C1_energy_cumulative_sum (p : Panel) (i t : Nat) (P : ℚ) (N : Nat)
    (hwf : p.WellFormed) (hi : i < p.values.length)
    (hE : "Energy" ∉ p.minor_axis) (hP : "Power" ∈ p.minor_axis)
    (ht : t < (p.series i "Power").length) :
    (p.deriveEnergy).series i "Energy" = energyFromPower (p.series i "Power")
    ∧ ((p.deriveEnergy).series i "Energy").getD t 0
        = (∑ k in Finset.range (t + 1), (p.series i "Power").getD k 0) * dt * J_2_kWh
    ∧ ((p.deriveEnergy).series i "Energy").getD 0 0
        = (p.series i "Power").getD 0 0 * dt * J_2_kWh
    ∧ energyFromPower (List.replicate N P)
        = (List.range N).map fun (k : Nat) => P * dt * J_2_kWh * ((k : ℚ) + 1) := by
  have h1 := deriveEnergy_series_energy p i hwf hi hE hP
  refine ⟨h1, ?_, ?_, energyFromPower_replicate P N⟩
  · rw [h1, energyFromPower_getD _ t ht]
  · rw [h1, energyFromPower_getD _ 0 (Nat.lt_of_le_of_lt (Nat.zero_le t) ht),
      Finset.sum_range_one]

/-- Witness for C1 at the sample panel: item 0, t = 1, constant power 100 W
over 3 samples. -/
theorem C1_energy_cumulative_sum_witness :
    (samplePanel.deriveEnergy).series 0 "Energy"
        = energyFromPower (samplePanel.series 0 "Power")
    ∧ ((samplePanel.deriveEnergy).series 0 "Energy").getD 1 0
        = (∑ k in Finset.range (1 + 1), (samplePanel.series 0 "Power").getD k 0) * dt * J_2_kWh
    ∧ ((samplePanel.deriveEnergy).series 0 "Energy").getD 0 0
        = (samplePanel.series 0 "Power").getD 0 0 * dt * J_2_kWh
    ∧ energyFromPower (List.replicate 3 (100 : ℚ))
        = (List.range 3).map fun (k : Nat) => (100 : ℚ) * dt * J_2_kWh * ((k : ℚ) + 1) :=
  C1_energy_cumulative_sum samplePanel 0 1 100 3 (by decide) (by decide) (by decide)
    (by decide) (by decide)

/-- C7: the energy derivation only appends the "Energy" variable: items,
time index and every pre-existing variable slice are unchanged. -/
theorem C7_frame_effect (p : Panel) (i : Nat) (v : String)
    (hwf : p.WellFormed) (hi : i < p.values.length)
    (hE : "Energy" ∉ p.minor_axis) (hv : v ∈ p.minor_axis) :
    p.deriveEnergy.items = p.items
    ∧ p.deriveEnergy.major_axis = p.major_axis
    ∧ p.deriveEnergy.minor_axis = p.minor_axis ++ ["Energy"]
    ∧ p.deriveEnergy.series i v = p.series i v :=
  ⟨deriveEnergy_items p, deriveEnergy_major p,
    by rw [deriveEnergy_eq_append p hE],
    deriveEnergy_series_old p i v hwf hi hE hv⟩

/-- Witness for C7 at the sample panel: item 1, variable "Vrms". -/
theorem C7_frame_effect_witness :
    samplePanel.deriveEnergy.items = samplePanel.items
    ∧ samplePanel.deriveEnergy.major_axis = samplePanel.major_axis
    ∧ samplePanel.deriveEnergy.minor_axis = samplePanel.minor_axis ++ ["Energy"]
    ∧ samplePanel.deriveEnergy.series 1 "Vrms" = samplePanel.series 1 "Vrms" :=
  C7_frame_effect samplePanel 1 "Vrms" (by decide) (by decide) (by decide) (by decide)

/-- C10: re-running the energy derivation recomputes the cumulative sum from
the unchanged "Power" slice and overwrites the existing "Energy" slice with
the same values, leaving the panel unchanged. -/
theorem C10_energy_rederivation_idempotent (p : Panel) (i : Nat)
    (hwf : p.WellFormed) (hi : i < p.values.length)
    (hE : "Energy" ∉ p.minor_axis) (hP : "Power" ∈ p.minor_axis) :
    (p.deriveEnergy).series i "Power" = p.series i "Power"
    ∧ p.deriveEnergy.deriveEnergy = p.deriveEnergy :=
  ⟨deriveEnergy_series_old p i "Power" hwf hi hE hP, deriveEnergy_idem p hwf hE hP⟩

/-- Witness for C10 at the sample panel, item 0. -/
theorem C10_energy_rederivation_idempotent_witness :
    (samplePanel.deriveEnergy).series 0 "Power" = samplePanel.series 0 "Power"
    ∧ samplePanel.deriveEnergy.deriveEnergy = samplePanel.deriveEnergy :=
  C10_energy_rederivation_idempotent samplePanel 0 (by decide) (by decide) (by decide)
    (by decide)

/-- C3 counterexample: invoking the energy derivation a second time on the
sample panel does NOT fail with `DuplicateVariableError`; it succeeds and
returns the panel unchanged. -/
theorem C3_duplicate_guard_counterexample :
    deriveEnergyE samplePanelE = Except.ok samplePanelE
    ∧ deriveEnergyE samplePanelE ≠ Except.error Err.duplicateVariableError := by
  have h2 : samplePanelE.deriveEnergy = samplePanelE :=
    deriveEnergy_idem samplePanel (by decide) (by decide) (by decide)
  have h : deriveEnergyE samplePanelE = Except.ok samplePanelE := by
    show Except.ok samplePanelE.deriveEnergy = Except.ok samplePanelE
    rw [h2]
  exact ⟨h, fun hc => Except.noConfusion (h.symm.trans hc)⟩

/-- C3 amended: the second invocation of the energy derivation raises no
error; it overwrites the "Energy" slice with identical recomputed values and
returns the panel unchanged from its state after the first call. -/
theorem C3_duplicate_guard_amended (p : Panel) (hwf : p.WellFormed)
    (hE : "Energy" ∉ p.minor_axis) (hP : "Power" ∈ p.minor_axis) :
    deriveEnergyE p.deriveEnergy = Except.ok p.deriveEnergy := by
  show Except.ok p.deriveEnergy.deriveEnergy = Except.ok p.deriveEnergy
  rw [deriveEnergy_idem p hwf hE hP]

/-- Witness for the amended C3 at the sample panel. -/
theorem C3_duplicate_guard_amended_witness :
    deriveEnergyE samplePanel.deriveEnergy = Except.ok samplePanel.deriveEnergy :=
  C3_duplicate_guard_amended samplePanel (by decide) (by decide) (by decide)

/-! ## Claim theorems: panel construction (C2) -/

/-- C2 counterexample: `dfA` and `dfB` have time indexes of equal length
but different values, yet the Panel builder succeeds — it silently builds a
Panel carrying `dfA`'s index — instead of failing with `AlignmentError`. -/
theorem C2_alignment_counterexample :
    dfA.index ≠ dfB.index
    ∧ buildPanel [dfA, dfB] ["a", "b"]
        = Except.ok { items := ["a", "b"], major_axis := dfA.index,
                      minor_axis := ["Power"], values := [[[1], [2]], [[3], [4]]] }
    ∧ buildPanel [dfA, dfB] ["a", "b"] ≠ Except.error Err.alignmentError := by
  refine ⟨by decide, rfl, ?_⟩
  intro hc
  exact Except.noConfusion ((rfl :
    buildPanel [dfA, dfB] ["a", "b"]
      = Except.ok { items := ["a", "b"], major_axis := dfA.index,
                    minor_axis := ["Power"], values := [[[1], [2]], [[3], [4]]] }).symm.trans hc)

/-- C2 amended: the Panel builder validates nothing about time-index
values: whenever the frames' value matrices agree in shape with the first
frame's, it succeeds and builds the Panel from the first frame's index and
columns, the remaining frames' index values being discarded; it never
raises `AlignmentError` (shape mismatches surface as the constructor's
ValueError, an empty input as IndexError). -/
theorem C2_alignment_amended (d0 : DataFrame) (rest : List DataFrame)
    (names : List String) (hsh : sameShape d0 (d0 :: rest) = true) :
    buildPanel (d0 :: rest) names
      = Except.ok { items := names, major_axis := d0.index, minor_axis := d0.columns,
                    values := ((d0 :: rest).map (·.values)) }
    ∧ buildPanel (d0 :: rest) names ≠ Except.error Err.alignmentError := by
  have h : buildPanel (d0 :: rest) names
      = Except.ok { items := names, major_axis := d0.index, minor_axis := d0.columns,
                    values := ((d0 :: rest).map (·.values)) } := by
    simp only [buildPanel]
    rw [if_pos hsh]
  exact ⟨h, fun hc => Except.noConfusion (h.symm.trans hc)⟩

/-- Witness for the amended C2 at the misaligned pair `dfA`, `dfB`. -/
theorem C2_alignment_amended_witness :
    buildPanel [dfA, dfB] ["a", "b"]
      = Except.ok { items := ["a", "b"], major_axis := dfA.index, minor_axis := dfA.columns,
                    values := ([dfA, dfB].map (·.values)) }
    ∧ buildPanel [dfA, dfB] ["a", "b"] ≠ Except.error Err.alignmentError :=
  C2_alignment_amended dfA [dfB] ["a", "b"] (by decide)

/-! ## Claim theorems: source loader errors (C6) -/

/-- C6 counterexample: none of the three advertised conditions produces an
`InputError`.  An empty directory loads as an empty list (the run fails
only later, with IndexError at `dfs[0]` in the Panel construction); an
unreadable file surfaces the reader's IOError; a row with an unparseable
timestamp loads without any error, its index kept as raw strings. -/
theorem C6_input_error_counterexample :
    loadFiles parseTs0 [] = Except.ok []
    ∧ pipeline parseTs0 [] = Except.error Err.indexError
    ∧ pipeline parseTs0 [] ≠ Except.error Err.inputError
    ∧ loadFiles parseTs0 [fileUnreadable] = Except.error Err.ioError
    ∧ loadFiles parseTs0 [fileUnreadable] ≠ Except.error Err.inputError
    ∧ loadFiles parseTs0 [fileBadTs]
        = Except.ok [{ index := PIndex.raw ["garbage"], columns := ["Power"],
                       values := [[100]] }]
    ∧ loadFiles parseTs0 [fileBadTs] ≠ Except.error Err.inputError := by
  refine ⟨rfl, rfl, ?_, rfl, ?_, rfl, ?_⟩
  · intro hc
    exact Err.noConfusion (Except.error.inj
      ((rfl : pipeline parseTs0 [] = Except.error Err.indexError).symm.trans hc))
  · intro hc
    exact Err.noConfusion (Except.error.inj
      ((rfl : loadFiles parseTs0 [fileUnreadable] = Except.error Err.ioError).symm.trans hc))
  · intro hc
    exact Except.noConfusion ((rfl :
      loadFiles parseTs0 [fileBadTs]
        = Except.ok [{ index := PIndex.raw ["garbage"], columns := ["Power"],
                       values := [[100]] }]).symm.trans hc)

lemma read_csv_error (parseTs : String → Option Timestamp) (f : RawFile) (e : Err)
    (h : read_csv parseTs f = Except.error e) : e = Err.ioError := by
  unfold read_csv at h
  by_cases hr : f.readable = false
  · rw [if_pos hr] at h
    exact (Except.error.inj h).symm
  · rw [if_neg hr] at h
    exact Except.noConfusion h

/-- C6 amended: the loader never raises an `InputError` (no such error
exists): the only exception it can propagate is the reader's IOError, from
an unreadable file.  Unparseable timestamps are loaded silently with a raw
string index, and an empty directory loads as an empty list whose failure
surfaces only later, as an IndexError in the Panel construction. -/
theorem C6_loader_errors_amended (parseTs : String → Option Timestamp)
    (files : List RawFile) (e : Err)
    (h : loadFiles parseTs files = Except.error e) : e = Err.ioError := by
  induction files with
  | nil => exact Except.noConfusion h
  | cons f fs ih =>
    unfold loadFiles at h
    cases hr : read_csv parseTs f with
    | error e1 =>
      rw [hr] at h
      rw [← Except.error.inj h]
      exact read_csv_error parseTs f e1 hr
    | ok d =>
      rw [hr] at h
      cases hl : loadFiles parseTs fs with
      | error e2 =>
        rw [hl] at h
        have he : e2 = e := Except.error.inj h
        rw [he] at hl
        exact ih hl
      | ok ds =>
        rw [hl] at h
        exact Except.noConfusion h

/-- Witness for the amended C6: the one condition that does raise, an
unreadable file, raises IOError. -/
theorem C6_loader_errors_amended_witness :
    loadFiles parseTs0 [fileUnreadable] = Except.error Err.ioError
    ∧ Err.ioError = Err.ioError :=
  ⟨rfl, C6_loader_errors_amended parseTs0 [fileUnreadable] Err.ioError rfl⟩

/-! ## Claim theorems: entity keys (C8) -/

lemma pySplitF_ne_nil (fuel : Nat) (sep s : List Char) (h : s.length < fuel) :
    pySplitF fuel sep s ≠ [] := by
  induction fuel generalizing s with
  | zero => exact absurd h (Nat.not_lt_zero _)
  | succ fuel ih =>
    cases s with
    | nil => simp [pySplitF]
    | cons c rest =>
      simp only [pySplitF]
      by_cases hc : 0 < sep.length ∧ sep.isPrefixOf (c :: rest)
      · rw [if_pos hc]
        simp
      · rw [if_neg hc]
        cases hps : pySplitF fuel sep rest with
        | nil => simp
        | cons piece more => simp

lemma pySplitF_head (fuel : Nat) (sep s : List Char) (h : s.length < fuel) :
    (pySplitF fuel sep s).headD [] = beforeSep sep s := by
  induction fuel generalizing s with
  | zero => exact absurd h (Nat.not_lt_zero _)
  | succ fuel ih =>
    cases s with
    | nil => rfl
    | cons c rest =>
      simp only [pySplitF, beforeSep]
      by_cases hc : 0 < sep.length ∧ sep.isPrefixOf (c :: rest)
      · rw [if_pos hc, if_pos hc]
        rfl
      · rw [if_neg hc, if_neg hc]
        have hrest : rest.length < fuel := Nat.lt_of_succ_lt_succ (by simpa using h)
        have hihr := ih rest hrest
        cases hps : pySplitF fuel sep rest with
        | nil => exact absurd hps (pySplitF_ne_nil fuel sep rest hrest)
        | cons piece more =>
          rw [hps] at hihr
          simp only [List.headD_cons] at hihr ⊢
          rw [hihr]

lemma pySplit_head (sep s : List Char) : (pySplit sep s).headD [] = beforeSep sep s :=
  pySplitF_head (s.length + 1) sep s (Nat.lt_succ_self _)

/-- C8 counterexample: for the file name `house1.txt` the code's key keeps
the `.txt` extension (`split('.csv')` only strips `.csv`), while the spec's
key strips any extension. -/
theorem C8_entity_key_counterexample :
    houseName "house1.txt" = "house1.txt"
    ∧ String.mk (specStripExt ("house1.txt".toList)) = "house1"
    ∧ houseName "house1.txt" ≠ String.mk (specStripExt ("house1.txt".toList)) :=
  ⟨by decide, by decide, by decide⟩

/-- C8 amended: the entity key is the part of the file name that precedes
the first occurrence of the substring ".csv" (the whole name when ".csv"
does not occur), so a `.csv` suffix is stripped but any other extension is
kept. -/
theorem C8_entity_key_amended (fname : String) :
    houseName fname = String.mk (beforeSep csvSep fname.toList) :=
  congrArg String.mk (pySplit_head csvSep fname.toList)

/-! ## Hourly aggregation (C5) -/

lemma mem_sort_dedup (l : List Nat) (a : Nat) :
    a ∈ List.insertionSort (fun a b => a ≤ b) l.dedup ↔ a ∈ l := by
  rw [(List.perm_insertionSort (fun a b => a ≤ b) l.dedup).mem_iff]
  exact List.mem_dedup

/-- C5: power samples are partitioned by the hour-of-day component of
their timestamps (the date is ignored), the mean is taken per bucket and
per entity, the table is keyed by hour-of-day with one column per entity,
and hours without samples are absent; on samples at hours [0,0,1] with
values [10,20,30] it yields hour 0 → 15, hour 1 → 30 and nothing else. -/
theorem C5_hourly_average (p : Panel) (ts : List Timestamp)
    (hrow : Nat × List ℚ) (hq : Nat)
    (hmaj : p.major_axis = PIndex.parsed ts)
    (hmem : hrow ∈ p.agg_hourly_power)
    (h24 : ∀ t ∈ ts, t.hour < 24)
    (hhq : hq ∈ ts.map (·.hour)) :
    hrow.1 ∈ ts.map (·.hour)
    ∧ hrow.1 < 24
    ∧ (hrow.2 = p.powerCols.map fun col => mean (selectByKey (ts.map (·.hour)) col hrow.1))
    ∧ hq ∈ p.agg_hourly_power.map Prod.fst
    ∧ agg_hourly [0, 0, 1] [[10, 20, 30]] = [(0, [15]), (1, [30])] := by
  have hhours : p.hourIndex = ts.map (·.hour) := by
    unfold Panel.hourIndex
    rw [hmaj]
  obtain ⟨h, hhmem, hform⟩ := List.mem_map.mp hmem
  have hkey : h ∈ ts.map (·.hour) := by
    rw [← hhours]
    exact (mem_sort_dedup _ h).mp hhmem
  have h1 : hrow.1 ∈ ts.map (·.hour) := by rw [← hform]; exact hkey
  refine ⟨h1, ?_, ?_, ?_, ?_⟩
  · obtain ⟨t, htmem, hth⟩ := List.mem_map.mp h1
    rw [← hth]
    exact h24 t htmem
  · rw [← hform, ← hhours]
  · have hq_in : hq ∈ List.insertionSort (fun a b => a ≤ b) p.hourIndex.dedup := by
      rw [mem_sort_dedup, hhours]
      exact hhq
    unfold Panel.agg_hourly_power agg_hourly
    exact List.mem_map.mpr ⟨_, List.mem_map.mpr ⟨hq, hq_in, rfl⟩, rfl⟩
  · have hd : ([0, 0, 1] : List Nat).dedup = [0, 1] := by decide
    have hs : List.insertionSort (fun a b => a ≤ b) ([0, 1] : List Nat) = [0, 1] := by
      decide
    unfold agg_hourly
    rw [hd, hs]
    norm_num [selectByKey, mean]

/-- Witness for C5 at the sample panel: its hours are [0, 0, 1], its power
columns [[100,100,100],[50,60,70]]; row (1, [100, 70]) of the hourly table
and queried hour 1. -/
theorem C5_hourly_average_witness :
    ((1 : Nat), [(100 : ℚ), 70]).1 ∈ ts3.map (·.hour)
    ∧ ((1 : Nat), [(100 : ℚ), 70]).1 < 24
    ∧ (((1 : Nat), [(100 : ℚ), 70]).2 = samplePanel.powerCols.map fun col =>
        mean (selectByKey (ts3.map (·.hour)) col ((1 : Nat), [(100 : ℚ), 70]).1))
    ∧ 1 ∈ samplePanel.agg_hourly_power.map Prod.fst
    ∧ agg_hourly [0, 0, 1] [[10, 20, 30]] = [(0, [15]), (1, [30])] := by
  have hh : samplePanel.hourIndex = [0, 0, 1] := rfl
  have hpc : samplePanel.powerCols = [[100, 100, 100], [50, 60, 70]] := rfl
  have hagg : samplePanel.agg_hourly_power = [(0, [100, 55]), (1, [100, 70])] := by
    unfold Panel.agg_hourly_power agg_hourly
    rw [hh, hpc]
    have hd : ([0, 0, 1] : List Nat).dedup = [0, 1] := by decide
    have hs : List.insertionSort (fun a b => a ≤ b) ([0, 1] : List Nat) = [0, 1] := by
      decide
    rw [hd, hs]
    norm_num [selectByKey, mean]
  exact C5_hourly_average samplePanel ts3 (1, [100, 70]) 1 rfl
    (by rw [hagg]; simp) (by decide) (by decide)

/-! ## Load-duration distribution (C4, C9) -/

lemma mem_sort_dedup' {α : Type} [DecidableEq α] [LinearOrder α] (l : List α) (a : α) :
    a ∈ List.insertionSort (fun a b => a ≤ b) l.dedup ↔ a ∈ l := by
  rw [(List.perm_insertionSort (fun a b => a ≤ b) l.dedup).mem_iff]
  exact List.mem_dedup

lemma sort_dedup_nodup {α : Type} [DecidableEq α] [LinearOrder α] (l : List α) :
    (List.insertionSort (fun a b => a ≤ b) l.dedup).Nodup :=
  ((List.perm_insertionSort (fun a b => a ≤ b) l.dedup).nodup_iff).mpr (List.nodup_dedup l)

lemma lookupTab_map_self (L : List ℚ) (f : ℚ → Nat) (k : ℚ) :
    lookupTab k (L.map fun a => (a, f a)) = if k ∈ L then some (f k) else none := by
  induction L with
  | nil => simp [lookupTab]
  | cons a L ih =>
    by_cases ha : a = k
    · subst ha
      simp [lookupTab]
    · have h1 : lookupTab k ((a :: L).map fun a => (a, f a))
          = lookupTab k (L.map fun a => (a, f a)) := by
        simp [lookupTab, ha]
      rw [h1, ih]
      by_cases hk : k ∈ L
      · rw [if_pos hk, if_pos (List.mem_cons_of_mem a hk)]
      · rw [if_neg hk, if_neg ?hnotc]
        case hnotc =>
          intro hc
          rcases List.mem_cons.mp hc with rfl | hmem
          · exact ha rfl
          · exact hk hmem

lemma lookupTab_gcount (xs : List ℚ) (k : ℚ) :
    (lookupTab k (gcount xs)).getD 0 = (xs.map binKey).count k := by
  unfold gcount
  rw [lookupTab_map_self]
  by_cases hk : k ∈ List.insertionSort (fun a b => a ≤ b) (xs.map binKey).dedup
  · rw [if_pos hk]
    rfl
  · rw [if_neg hk]
    have hnm : k ∉ xs.map binKey := fun hc => hk ((mem_sort_dedup' _ k).mpr hc)
    rw [List.count_eq_zero.mpr hnm]
    rfl

lemma gcount_keys (xs : List ℚ) :
    (gcount xs).map Prod.fst
      = List.insertionSort (fun a b => a ≤ b) (xs.map binKey).dedup := by
  unfold gcount
  rw [List.map_map]
  exact map_id_of_mem _ _ fun a _ => rfl

lemma sum_count_eq_length (K ks : List ℚ) (hnd : K.Nodup) (hsub : ∀ a ∈ ks, a ∈ K) :
    (K.map fun k => ks.count k).sum = ks.length := by
  rw [← List.sum_toFinset _ hnd]
  have hsub' : ks.toFinset ⊆ K.toFinset := by
    intro a ha
    rw [List.mem_toFinset] at ha ⊢
    exact hsub a ha
  rw [← Finset.sum_subset hsub' ?hzero]
  · exact List.sum_toFinset_count_eq_length ks
  case hzero =>
    intro x _ hnx
    rw [List.mem_toFinset] at hnx
    exact List.count_eq_zero.mpr hnx

lemma getD_mem_cols (cols : List (List ℚ)) (j : Nat) (hj : j < cols.length) :
    cols.getD j [] ∈ cols := by
  rw [List.getD_eq_getElem cols [] hj]
  exact List.getElem_mem hj

lemma load_duration_entry (cols : List (List ℚ)) (r : ℚ × List ℚ) (j : Nat)
    (hr : r ∈ load_duration cols) (hj : j < cols.length) :
    r.2.getD j 0 = (((cols.getD j []).map binKey).count r.1 : ℚ) := by
  unfold load_duration at hr
  obtain ⟨k, _, rfl⟩ := List.mem_map.mp hr
  show ((cols.map gcount).map fun t => (((lookupTab k t).getD 0 : Nat) : ℚ)).getD j 0 = _
  rw [List.map_map]
  rw [getD_map_lt _ cols j 0 [] hj]
  simp only [Function.comp_apply]
  rw [lookupTab_gcount]

lemma mem_allKeys_of_mem (cols : List (List ℚ)) (j : Nat) (hj : j < cols.length)
    (a : ℚ) (ha : a ∈ (cols.getD j []).map binKey) :
    a ∈ List.insertionSort (fun a b => a ≤ b)
        (((cols.map gcount).map fun t => t.map Prod.fst).flatten.dedup) := by
  rw [mem_sort_dedup']
  rw [List.mem_flatten]
  refine ⟨(gcount (cols.getD j [])).map Prod.fst, ?_, ?_⟩
  · exact List.mem_map.mpr ⟨gcount (cols.getD j []),
      List.mem_map.mpr ⟨cols.getD j [], getD_mem_cols cols j hj, rfl⟩, rfl⟩
  · rw [gcount_keys]
    exact (mem_sort_dedup' _ a).mpr ha

lemma load_duration_row_length (cols : List (List ℚ)) (r : ℚ × List ℚ)
    (hr : r ∈ load_duration cols) : r.2.length = cols.length := by
  unfold load_duration at hr
  obtain ⟨k, _, rfl⟩ := List.mem_map.mp hr
  simp

lemma load_duration_colSum (cols : List (List ℚ)) (j : Nat) (hj : j < cols.length) :
    colSum (load_duration cols) j = ((cols.getD j []).length : ℚ) := by
  have hentry : ∀ r ∈ load_duration cols,
      (fun r : ℚ × List ℚ => r.2.getD j 0) r
        = (fun r : ℚ × List ℚ => ((((cols.getD j []).map binKey).count r.1 : Nat) : ℚ)) r :=
    fun r hr => load_duration_entry cols r j hr hj
  unfold colSum
  rw [map_congr_mem _ _ _ hentry]
  unfold load_duration
  rw [List.map_map]
  rw [show ((fun r : ℚ × List ℚ => ((((cols.getD j []).map binKey).count r.1 : Nat) : ℚ))
        ∘ fun k => (k, (cols.map gcount).map fun t => (((lookupTab k t).getD 0 : Nat) : ℚ)))
      = fun (k : ℚ) => ((((cols.getD j []).map binKey).count k : Nat) : ℚ) from rfl]
  rw [show (fun (k : ℚ) => ((((cols.getD j []).map binKey).count k : Nat) : ℚ))
      = (fun (n : Nat) => (n : ℚ)) ∘ fun k => ((cols.getD j []).map binKey).count k from rfl]
  rw [← List.map_map]
  rw [sum_map_natCast]
  rw [sum_count_eq_length _ _ (sort_dedup_nodup _) ?hsub]
  · rw [List.length_map]
  case hsub =>
    intro a ha
    exact mem_allKeys_of_mem cols j hj a ha

/-- C4: every power sample is bucketed into a 200 W bin per entity, counts
are expressed as `count / total_count_for_that_entity * 100`, bins missing
for an entity after the outer join are filled with 0 (every row carries one
value per entity, equal to that entity's count of the row's bin), and each
entity's percentages are ≥ 0 and sum to 100. -/
theorem C4_load_duration_normalization (cols : List (List ℚ)) (j : Nat)
    (r rp : ℚ × List ℚ)
    (hj : j < cols.length) (hne : cols.getD j [] ≠ [])
    (hr : r ∈ load_duration cols) (hrp : rp ∈ load_duration_pct cols) :
    r.2.length = cols.length
    ∧ r.2.getD j 0 = (((cols.getD j []).map binKey).count r.1 : ℚ)
    ∧ 0 ≤ rp.2.getD j 0
    ∧ ((load_duration_pct cols).map fun q => q.2.getD j 0).sum = 100 := by
  have hS : colSum (load_duration cols) j = ((cols.getD j []).length : ℚ) :=
    load_duration_colSum cols j hj
  have hSpos : 0 < colSum (load_duration cols) j := by
    rw [hS]
    exact_mod_cast List.length_pos.mpr hne
  refine ⟨load_duration_row_length cols r hr, load_duration_entry cols r j hr hj, ?_, ?_⟩
  · obtain ⟨r', hr', rfl⟩ := List.mem_map.mp hrp
    show ((List.range cols.length).map fun j' =>
      r'.2.getD j' 0 * 100 / colSum (load_duration cols) j').getD j 0 ≥ 0
    rw [getD_range_map _ cols.length j 0 hj]
    have hv := load_duration_entry cols r' j hr' hj
    apply div_nonneg _ hSpos.le
    apply mul_nonneg _ (by norm_num)
    rw [hv]
    exact Nat.cast_nonneg _
  · unfold load_duration_pct
    rw [List.map_map]
    rw [map_congr_mem _ _
      (fun r : ℚ × List ℚ => r.2.getD j 0 * 100 / colSum (load_duration cols) j) ?hpoint]
    case hpoint =>
      intro q _
      simp only [Function.comp_apply]
      exact getD_range_map _ cols.length j 0 hj
    rw [show (fun r : ℚ × List ℚ => r.2.getD j 0 * 100 / colSum (load_duration cols) j)
        = (fun x => x * (100 / colSum (load_duration cols) j))
            ∘ fun r : ℚ × List ℚ => r.2.getD j 0 from
      funext fun r => by simp only [Function.comp_apply]; rw [mul_div_assoc]]
    rw [← List.map_map]
    rw [sum_map_mul_const]
    show colSum (load_duration cols) j * (100 / colSum (load_duration cols) j) = 100
    rw [mul_comm, div_mul_cancel₀ 100 (ne_of_gt hSpos)]

/-- C9: the grouping key of the load-duration histogram is
`200 * floor(x / 200)` — the lower bound in watts of the sample's bin,
flooring toward negative infinity — so every key of the merged table is
the bin key of some sample (a multiple of 200 W), not a bare bin id. -/
theorem C9_bin_labels (x : ℚ) (cols : List (List ℚ)) (r : ℚ × List ℚ)
    (hr : r ∈ load_duration cols) :
    binKey x = size_bins * ((⌊x / size_bins⌋ : ℤ) : ℚ)
    ∧ binKey x ≤ x
    ∧ x < binKey x + size_bins
    ∧ r.1 ∈ cols.flatten.map binKey := by
  have hs : (0 : ℚ) < size_bins := by norm_num [size_bins]
  refine ⟨rfl, ?_, ?_, ?_⟩
  · have h1 : (⌊x / size_bins⌋ : ℚ) ≤ x / size_bins := Int.floor_le _
    have h2 : size_bins * (⌊x / size_bins⌋ : ℚ) ≤ size_bins * (x / size_bins) :=
      mul_le_mul_of_nonneg_left h1 hs.le
    calc binKey x = size_bins * (⌊x / size_bins⌋ : ℚ) := rfl
      _ ≤ size_bins * (x / size_bins) := h2
      _ = x := by rw [mul_comm, div_mul_cancel₀ x (ne_of_gt hs)]
  · have h1 : x / size_bins < (⌊x / size_bins⌋ : ℚ) + 1 := Int.lt_floor_add_one _
    have h2 : size_bins * (x / size_bins) < size_bins * ((⌊x / size_bins⌋ : ℚ) + 1) :=
      (mul_lt_mul_left hs).mpr h1
    calc x = size_bins * (x / size_bins) := by
          rw [mul_comm, div_mul_cancel₀ x (ne_of_gt hs)]
      _ < size_bins * ((⌊x / size_bins⌋ : ℚ) + 1) := h2
      _ = binKey x + size_bins := by unfold binKey floorDiv; ring
  · unfold load_duration at hr
    obtain ⟨k, hk, rfl⟩ := List.mem_map.mp hr
    rw [mem_sort_dedup'] at hk
    rw [List.mem_flatten] at hk
    obtain ⟨tk, htk, hkin⟩ := hk
    obtain ⟨t, ht, rfl⟩ := List.mem_map.mp htk
    obtain ⟨xs, hxs, rfl⟩ := List.mem_map.mp ht
    rw [gcount_keys, mem_sort_dedup'] at hkin
    obtain ⟨y, hy, rfl⟩ := List.mem_map.mp hkin
    exact List.mem_map.mpr ⟨y, List.mem_flatten.mpr ⟨xs, hxs, hy⟩, rfl⟩

lemma binKey_zero : binKey 0 = 0 := by
  norm_num [binKey, floorDiv, size_bins]

lemma gcount_single_zero : gcount [0] = [(0, 1)] := by
  unfold gcount
  rw [show ([(0 : ℚ)].map binKey) = [0] from by simp [binKey_zero]]
  rw [show ([(0 : ℚ)].dedup) = [0] from by simp]
  simp [List.insertionSort, List.orderedInsert]

lemma load_duration_single_zero : load_duration [[0]] = [(0, [1])] := by
  unfold load_duration
  rw [show ([[(0 : ℚ)]].map gcount) = [[((0 : ℚ), 1)]] from by simp [gcount_single_zero]]
  simp [List.insertionSort, List.orderedInsert, lookupTab]

lemma load_duration_pct_single_zero : load_duration_pct [[0]] = [(0, [100])] := by
  unfold load_duration_pct
  rw [load_duration_single_zero]
  simp only [List.length_singleton]
  rw [show List.range 1 = [0] from by decide]
  have hcs : colSum [((0 : ℚ), [(1 : ℚ)])] 0 = 1 := by norm_num [colSum]
  norm_num [hcs]

/-- Witness for C4 on one entity with the single sample 0 W: the joined
table is [(0, [1])], the percentage table [(0, [100])]. -/
theorem C4_load_duration_normalization_witness :
    ((0 : ℚ), [(1 : ℚ)]).2.length = ([[(0 : ℚ)]] : List (List ℚ)).length
    ∧ ((0 : ℚ), [(1 : ℚ)]).2.getD 0 0
        = (((([[(0 : ℚ)]] : List (List ℚ)).getD 0 []).map binKey).count
            ((0 : ℚ), [(1 : ℚ)]).1 : ℚ)
    ∧ 0 ≤ ((0 : ℚ), [(100 : ℚ)]).2.getD 0 0
    ∧ ((load_duration_pct [[(0 : ℚ)]]).map fun q => q.2.getD 0 0).sum = 100 :=
  C4_load_duration_normalization [[0]] 0 (0, [1]) (0, [100]) (by decide) (by decide)
    (by rw [load_duration_single_zero]; simp)
    (by rw [load_duration_pct_single_zero]; simp)

/-- Witness for C9 at x = 250 W (bin key 200) and the table row of the
single-sample entity. -/
theorem C9_bin_labels_witness :
    binKey 250 = size_bins * ((⌊(250 : ℚ) / size_bins⌋ : ℤ) : ℚ)
    ∧ binKey 250 ≤ 250
    ∧ (250 : ℚ) < binKey 250 + size_bins
    ∧ ((0 : ℚ), [(1 : ℚ)]).1 ∈ ([[(0 : ℚ)]] : List (List ℚ)).flatten.map binKey :=
  C9_bin_labels 250 [[0]] (0, [1]) (by rw [load_duration_single_zero]; simp)
